import Mathlib

/-!
Shallow embedding of the MCP tool subsystem of the aichatbot repository:
the iterative tool-calling loop (src/ai/tool_executor.py) and the MCP
server manager with connection pooling (src/mcp_manager.py).

External collaborators (the json stdlib parser, the OpenAI chat-completions
client, and the per-server MCP protocol operations connect/list_tools/
call_tool) are modelled as explicit environment parameters; raising an
exception is modelled as returning `Except.error`.
-/

namespace AIChatBot

/-- Structured key/value argument payload, the result of a successful
`json.loads` on a tool call argument string. -/
def ArgsV : Type := List (String × String)

instance : DecidableEq ArgsV := by
  unfold ArgsV
  infer_instance

instance {ε α : Type} [DecidableEq ε] [DecidableEq α] :
    DecidableEq (Except ε α) := fun a b =>
  match a, b with
  | .ok x, .ok y =>
    if h : x = y then .isTrue (by rw [h]) else
      .isFalse (by intro hc; cases hc; exact h rfl)
  | .error x, .error y =>
    if h : x = y then .isTrue (by rw [h]) else
      .isFalse (by intro hc; cases hc; exact h rfl)
  | .ok _, .error _ => .isFalse (by intro hc; cases hc)
  | .error _, .ok _ => .isFalse (by intro hc; cases hc)

/-- One tool-call request from the LLM: `tc.id`, `tc.function.name`,
`tc.function.arguments` (a raw string payload). -/
structure ToolCall where
  id : String
  name : String
  arguments : String
deriving DecidableEq

/-- An assistant message from the chat-completions API: optional text
content and a (possibly empty) list of tool calls. A Python `None`
content is `none`; `tool_calls` of `None` and `[]` are both `[]`. -/
structure Message where
  content : Option String
  toolCalls : List ToolCall
deriving DecidableEq

/-- A message appended to the conversation history by the loop. -/
inductive HistMsg where
  | assistant (content : Option String) (toolCalls : List ToolCall)
  | tool (toolCallId : String) (name : String) (content : String)
deriving DecidableEq

/-- Result of `_execute_single_tool_call`: either the string returned by
`mcp_manager.execute_tool`, or the dict `\x7b"error": msg\x7d` built in the
except branch. -/
inductive ToolResultVal where
  | str (s : String)
  | errorDict (msg : String)
deriving DecidableEq

/-- A single apostrophe character, used in quoted error messages. -/
def sq : String := String.singleton (Char.ofNat 39)

/-- `json.dumps(\x7b"error": msg\x7d)`. -/
def jsonErrorObj (msg : String) : String :=
  "\x7b\"error\": \"" ++ msg ++ "\"\x7d"

/-- Content string stored by `_add_tool_result_to_history`: dict results
are serialized with `json.dumps`, strings pass through. -/
def tool_result_content : ToolResultVal → String
  | .str s => s
  | .errorDict msg => jsonErrorObj msg

/-- Environment of `ToolExecutor.execute_tool_loop`: the `json.loads`
argument parser (`none` models a raised `JSONDecodeError`), the
`mcp_manager.execute_tool` call (`Except.error` models a raised
exception), and the chat-completions resubmission indexed by the value of
the `iteration` counter when it is issued (`Except.error` models an API
exception). -/
structure LoopEnv where
  parseArgs : String → Option ArgsV
  execTool : String → ArgsV → Except String String
  llm : Nat → Except String Message

/-- The fixed placeholder returned when the final message has falsy
content (source: tool_executor.py line 97). -/
def fallbackText : String :=
  "I used tools but couldn" ++ sq ++ "t generate a text response."

/-- `message.content if message.content else fallback`: Python truthiness
makes both `None` and the empty string fall back. -/
def finalResponseOf (m : Message) : String :=
  match m.content with
  | some s => if s = "" then fallbackText else s
  | none => fallbackText

/-- `ToolExecutor._execute_single_tool_call`. The `json.loads` call sits
before the `try` block in the source, so a parse failure is a raised
exception (`Except.error`), while a failure of `execute_tool` is caught
and turned into an error dict. -/
def execute_single_tool_call (env : LoopEnv) (tc : ToolCall) :
    Except String ToolResultVal :=
  match env.parseArgs tc.arguments with
  | none => .error ("JSONDecodeError: " ++ tc.arguments)
  | some args =>
    match env.execTool tc.name args with
    | .ok r => .ok (.str r)
    | .error e => .ok (.errorDict ("Error executing tool " ++ tc.name ++ ": " ++ e))

/-- The `for tool_call in message.tool_calls` body: execute each call and
append its tool-result message; a raised exception aborts the whole
batch. -/
def runToolCalls (env : LoopEnv) : List ToolCall → List HistMsg →
    Except String (List HistMsg)
  | [], h => .ok h
  | tc :: rest, h =>
    match execute_single_tool_call env tc with
    | .error e => .error e
    | .ok r =>
      runToolCalls env rest
        (h ++ [HistMsg.tool tc.id tc.name (tool_result_content r)])

/-- The `while message.tool_calls and iteration < max_iterations` loop of
`execute_tool_loop`. The fuel argument is `max_iterations - iteration`,
so `fuel = 0` is exactly the `iteration < max_iterations` test failing.
Returns the final `message`, the final `iteration` counter and the
history; `Except.error` is an uncaught exception escaping the loop. -/
def execute_tool_loop_go (env : LoopEnv) :
    Nat → Message → Nat → List HistMsg →
    Except String (Message × Nat × List HistMsg)
  | 0, m, it, h => .ok (m, it, h)
  | fuel + 1, m, it, h =>
    if m.toolCalls.isEmpty then .ok (m, it, h)
    else
      let it1 := it + 1
      let h1 := h ++ [HistMsg.assistant m.content m.toolCalls]
      match runToolCalls env m.toolCalls h1 with
      | .error e => .error e
      | .ok h2 =>
        match env.llm it1 with
        | .error _ => .ok (m, it1, h2)
        | .ok m2 => execute_tool_loop_go env fuel m2 it1 h2

/-- What `ToolExecutor.execute_tool_loop` returns, plus the final value of
its `iteration` counter (each iteration issues exactly one
chat-completions resubmission, so `iteration` is also the number of
resubmission attempts) and the mutated history. -/
structure LoopOut where
  finalResponse : String
  maxIterationsReached : Bool
  iteration : Nat
  history : List HistMsg
deriving DecidableEq

/-- `ToolExecutor.execute_tool_loop(initial_message, history, ...)`.
An `Except.error` result models an exception raised out of the loop to
the caller. -/
def execute_tool_loop (env : LoopEnv) (maxIterations : Nat)
    (initial : Message) (history : List HistMsg) : Except String LoopOut :=
  match execute_tool_loop_go env maxIterations initial 0 history with
  | .error e => .error e
  | .ok (m, it, h) =>
    .ok { finalResponse := finalResponseOf m
          maxIterationsReached := decide (maxIterations ≤ it)
          iteration := it
          history := h }

/-! ## MCP server manager (src/mcp_manager.py) -/

/-- `MCPServerConfig` dataclass. -/
structure MCPServerConfig where
  name : String
  transport : String
  command : String
  args : List String
  url : Option String := none
  envVars : Option (List (String × String)) := none
  enabled : Bool := true
deriving DecidableEq

/-- One tool reported by `session.list_tools()`: `name`, `description`
(`None` allowed) and, when the attribute exists, an opaque `inputSchema`
rendering. -/
structure ToolInfo where
  name : String
  description : Option String
  inputSchema : Option String
deriving DecidableEq

/-- The OpenAI-formatted tool dict built by `get_all_tools`. -/
structure OpenAITool where
  name : String
  description : String
  parameters : String
  mcpServer : String
deriving DecidableEq

/-- The empty dict used when a tool has no `inputSchema` attribute. -/
def emptySchema : String := "\x7b\x7d"

/-- Formatting of one discovered tool (get_all_tools lines 169-177):
`tool.description or "No description available"` treats both `None` and
the empty string as falsy. -/
def format_openai_tool (serverName : String) (t : ToolInfo) : OpenAITool :=
  { name := t.name
    description :=
      match t.description with
      | some s => if s = "" then "No description available" else s
      | none => "No description available"
    parameters := t.inputSchema.getD emptySchema
    mcpServer := serverName }

/-- A pooled session entry: a fresh-session identifier (identifying the
underlying `ClientSession` object) and the `last_used` timestamp. -/
structure SessionData where
  sid : Nat
  lastUsed : Int
deriving DecidableEq

/-- Association-list lookup, modelling Python dict access by key. -/
def alookup {α : Type} (m : List (String × α)) (k : String) : Option α :=
  match m.find? (fun p => p.1 = k) with
  | some p => some p.2
  | none => none

/-- Association-list insert-or-replace, modelling `d[k] = v`: replaces
the (unique) occurrence of the key, else appends, preserving insertion
order exactly as a Python dict does. -/
def aset {α : Type} : List (String × α) → String → α → List (String × α)
  | [], k, v => [(k, v)]
  | p :: rest, k, v =>
    if p.1 = k then (k, v) :: rest else p :: aset rest k v

/-- Association-list removal, modelling `d.pop(k, None)` / `del d[k]`. -/
def aremove {α : Type} (m : List (String × α)) (k : String) :
    List (String × α) :=
  m.filter (fun p => ¬ p.1 = k)

/-- Mutable state of an `MCPServerManager` instance. `sessionTtl` is 300
in the source; `nextSid` is instrumentation giving each freshly created
session a distinct identifier. -/
structure ManagerState where
  configs : List MCPServerConfig
  toolCache : List (String × String)
  toolsListCache : List OpenAITool
  cacheTimestamp : Int
  activeSessions : List (String × SessionData)
  sessionTtl : Int
  cacheTtl : Int
  nextSid : Nat
deriving DecidableEq

/-- One item of an MCP result envelope content list: `text` when the
attribute exists, and a `str(...)` rendering. -/
structure MCPContentItem where
  text : Option String
  reprStr : String
deriving DecidableEq

/-- The structured result envelope of `session.call_tool`; `content` is
`none` when absent or `None`, and `reprStr` is `str(result)`. -/
structure MCPResult where
  content : Option (List MCPContentItem)
  reprStr : String
deriving DecidableEq

/-- Outcome of `session.call_tool` under `asyncio.wait_for`. -/
inductive CallOutcome where
  | ok (result : MCPResult)
  | err (msg : String)
  | timeout
deriving DecidableEq

/-- Per-server protocol environment: `connect` models subprocess launch,
handshake and `initialize` for a named server; `listTools` models
`session.list_tools()`; `callTool` models `session.call_tool` under the
execution timeout. `Except.error` models a raised exception. -/
structure MCPEnv where
  connect : String → Except String Unit
  listTools : String → Except String (List ToolInfo)
  callTool : String → String → ArgsV → CallOutcome

/-- `MCPServerManager._close_session`: errors from the context-manager
exits are swallowed and the `finally` always deletes the table entry, so
the net state effect is removal of the entry (a no-op when absent). -/
def close_session (st : ManagerState) (serverName : String) : ManagerState :=
  { st with activeSessions := aremove st.activeSessions serverName }

/-- The fresh-session path of `_get_or_create_session` (lines 79-109):
non-stdio transports raise `NotImplementedError`; a connect/handshake
failure raises without touching the table; success stores the new session
stamped `last_used = now`. -/
def create_new_session (env : MCPEnv) (now : Int) (st : ManagerState)
    (config : MCPServerConfig) : Except String (ManagerState × Nat) :=
  if config.transport ≠ "stdio" then
    .error "NotImplementedError: Only stdio transport is supported"
  else
    match env.connect config.name with
    | .error e => .error e
    | .ok _ =>
      .ok ({ st with
              activeSessions :=
                aset st.activeSessions config.name
                  { sid := st.nextSid, lastUsed := now }
              nextSid := st.nextSid + 1 },
           st.nextSid)

/-- `MCPServerManager._get_or_create_session`: reuse a pooled session iff
`now - last_used < session_ttl` (refreshing `last_used`); otherwise close
the expired session and create a fresh one. Returns the session
identifier alongside the new state. -/
def get_or_create_session (env : MCPEnv) (now : Int) (st : ManagerState)
    (config : MCPServerConfig) : Except String (ManagerState × Nat) :=
  match alookup st.activeSessions config.name with
  | some sd =>
    if now - sd.lastUsed < st.sessionTtl then
      .ok ({ st with
              activeSessions :=
                aset st.activeSessions config.name
                  { sd with lastUsed := now } },
           sd.sid)
    else
      create_new_session env now (close_session st config.name) config
  | none => create_new_session env now st config

/-- `MCPServerManager._is_cache_valid`. -/
def is_cache_valid (now : Int) (st : ManagerState) : Bool :=
  if st.toolCache = [] then false
  else decide (now - st.cacheTimestamp < st.cacheTtl)

/-- The `for config in self.configs` body of `get_all_tools`: per-server
discovery with the failing server logged, its session closed, and the
loop continuing. Accumulates the formatted tool list and the cache
updates. -/
def refresh_loop (env : MCPEnv) (now : Int) :
    List MCPServerConfig → ManagerState → List OpenAITool →
    List OpenAITool × ManagerState
  | [], st, acc => (acc, st)
  | c :: rest, st, acc =>
    match get_or_create_session env now st c with
    | .error _ => refresh_loop env now rest (close_session st c.name) acc
    | .ok (st1, _) =>
      match env.listTools c.name with
      | .error _ => refresh_loop env now rest (close_session st1 c.name) acc
      | .ok tools =>
        let acc1 := acc ++ tools.map (format_openai_tool c.name)
        let st2 := { st1 with
          toolCache :=
            tools.foldl (fun tc t => aset tc t.name c.name) st1.toolCache }
        refresh_loop env now rest st2 acc1

/-- The full-refresh path of `get_all_tools` (lines 158-194): run
discovery over all configured servers, then stamp the cache timestamp
with `now` and store the formatted list. -/
def refresh_all (env : MCPEnv) (now : Int) (st : ManagerState) :
    List OpenAITool × ManagerState :=
  let p := refresh_loop env now st.configs st []
  (p.1, { p.2 with cacheTimestamp := now, toolsListCache := p.1 })

/-- `MCPServerManager.get_all_tools`: return the cached list when the
cache is valid and the cached list is non-empty, else full refresh. -/
def get_all_tools (env : MCPEnv) (now : Int) (st : ManagerState) :
    List OpenAITool × ManagerState :=
  if is_cache_valid now st && !st.toolsListCache.isEmpty then
    (st.toolsListCache, st)
  else refresh_all env now st

/-- `MCPServerManager._get_config_from_cache`: `None` on an invalid cache
or a missing entry; a cached server name no longer present among the
configs evicts the entry. -/
def get_config_from_cache (now : Int) (st : ManagerState)
    (toolName : String) : Option MCPServerConfig × ManagerState :=
  if !(is_cache_valid now st) || !(alookup st.toolCache toolName).isSome then
    (none, st)
  else
    match alookup st.toolCache toolName with
    | none => (none, st)
    | some serverName =>
      match st.configs.find? (fun c => c.name = serverName) with
      | some c => (some c, st)
      | none => (none, { st with toolCache := aremove st.toolCache toolName })

/-- The `for config in self.configs` search of `_find_server_with_tool`:
a failing server is logged, its session closed, and the search continues
with the next server; the first owner found is cached and returned. -/
def find_server_loop (env : MCPEnv) (now : Int) (toolName : String) :
    List MCPServerConfig → ManagerState →
    Option MCPServerConfig × ManagerState
  | [], st => (none, st)
  | c :: rest, st =>
    match get_or_create_session env now st c with
    | .error _ => find_server_loop env now toolName rest (close_session st c.name)
    | .ok (st1, _) =>
      match env.listTools c.name with
      | .error _ =>
        find_server_loop env now toolName rest (close_session st1 c.name)
      | .ok tools =>
        if tools.any (fun t => t.name = toolName) then
          (some c, { st1 with toolCache := aset st1.toolCache toolName c.name })
        else find_server_loop env now toolName rest st1

/-- `MCPServerManager._find_server_with_tool`. -/
def find_server_with_tool (env : MCPEnv) (now : Int) (st : ManagerState)
    (toolName : String) : Option MCPServerConfig × ManagerState :=
  find_server_loop env now toolName st.configs st

/-- `MCPServerManager._extract_result_content`: first content item text
when present, else `str` renderings. -/
def extract_result_content (r : MCPResult) : String :=
  match r.content with
  | some (item :: _) =>
    match item.text with
    | some t => t
    | none => item.reprStr
  | some [] => r.reprStr
  | none => r.reprStr

/-- The distinguishable failures of `execute_tool`: the timeout message
built at line 303, a propagated execution error, and the not-found
message of line 216. -/
inductive ToolError where
  | timeoutError (msg : String)
  | execError (msg : String)
  | notFound (msg : String)
deriving DecidableEq

/-- The timeout error message (MCP_TOOL_TIMEOUT_SECONDS = 30). -/
def timeoutMsg (toolName : String) : String :=
  "Tool " ++ sq ++ toolName ++ sq ++ " execution timed out after 30 seconds"

/-- The not-found error message of `execute_tool` line 216. -/
def notFoundMsg (toolName : String) : String :=
  "Tool " ++ sq ++ toolName ++ sq ++ " not found in any connected server"

/-- `MCPServerManager._execute_tool_on_server`: the `try` encloses the
session acquisition, so a session failure is caught by the generic
`except` (close + cache eviction + re-raise); a timeout closes the
session, keeps the cache entry and raises the timeout message; any other
execution error closes the session, evicts the tool from the cache and
propagates. -/
def execute_tool_on_server (env : MCPEnv) (now : Int) (st : ManagerState)
    (config : MCPServerConfig) (toolName : String) (args : ArgsV) :
    Except ToolError String × ManagerState :=
  match get_or_create_session env now st config with
  | .error e =>
    let st1 := close_session st config.name
    (.error (.execError e),
     { st1 with toolCache := aremove st1.toolCache toolName })
  | .ok (st1, _) =>
    match env.callTool config.name toolName args with
    | .ok result => (.ok (extract_result_content result), st1)
    | .timeout =>
      (.error (.timeoutError (timeoutMsg toolName)),
       close_session st1 config.name)
    | .err e =>
      let st2 := close_session st1 config.name
      (.error (.execError e),
       { st2 with toolCache := aremove st2.toolCache toolName })

/-- `MCPServerManager.execute_tool`: cache first, then linear search over
all servers, then dispatch on the found server or a not-found error. -/
def execute_tool (env : MCPEnv) (now : Int) (st : ManagerState)
    (toolName : String) (args : ArgsV) :
    Except ToolError String × ManagerState :=
  match get_config_from_cache now st toolName with
  | (some config, st1) => execute_tool_on_server env now st1 config toolName args
  | (none, st1) =>
    match find_server_loop env now toolName st1.configs st1 with
    | (some config, st2) =>
      execute_tool_on_server env now st2 config toolName args
    | (none, st2) => (.error (.notFound (notFoundMsg toolName)), st2)

/-! ## Characterization helpers for stating the manager claims -/

/-- Whether an external call succeeded. -/
def exceptIsOk {ε α : Type} : Except ε α → Bool
  | .ok _ => true
  | .error _ => false

/-- A server whose discovery round-trip (connect plus `list_tools`)
succeeds in the given environment. -/
def discovery_ok (env : MCPEnv) (c : MCPServerConfig) : Bool :=
  exceptIsOk (env.connect c.name) && exceptIsOk (env.listTools c.name)

/-- The tools a server reports, empty when discovery fails. -/
def server_tools (env : MCPEnv) (c : MCPServerConfig) : List ToolInfo :=
  match env.listTools c.name with
  | .ok ts => ts
  | .error _ => []

/-- Invariant threaded through the discovery loops: every pooled session
was stamped at the current instant and belongs to a server whose connect
and discovery calls succeed. Holds trivially of an empty pool. -/
def RefreshInv (env : MCPEnv) (now : Int)
    (sessions : List (String × SessionData)) : Prop :=
  ∀ p ∈ sessions, p.2.lastUsed = now ∧
    exceptIsOk (env.connect p.1) = true ∧
    exceptIsOk (env.listTools p.1) = true

/-! ## Concrete scenario inputs used by witnesses and counterexamples -/

/-- A configured server whose subprocess fails to start. -/
def alphaC : MCPServerConfig :=
  { name := "alpha", transport := "stdio", command := "npx", args := [] }

/-- A configured server that works. -/
def betaC : MCPServerConfig :=
  { name := "beta", transport := "stdio", command := "npx", args := [] }

/-- The one tool the `beta` scenario server exposes. -/
def toolT : ToolInfo :=
  { name := "t", description := some "a tool", inputSchema := none }

/-- Scenario protocol environment: `alpha` fails to connect, `beta`
serves one tool, and every tool invocation times out. -/
def envM : MCPEnv :=
  { connect := fun n => if n = "alpha" then .error "spawn failed" else .ok ()
    listTools := fun n => if n = "beta" then .ok [toolT] else .error "no such server"
    callTool := fun _ _ _ => .timeout }

/-- Scenario protocol environment whose tool invocations fail with an
ordinary execution error. -/
def envMerr : MCPEnv :=
  { connect := fun n => if n = "alpha" then .error "spawn failed" else .ok ()
    listTools := fun n => if n = "beta" then .ok [toolT] else .error "no such server"
    callTool := fun _ _ _ => .err "protocol error" }

/-- Scenario manager state: two configured servers, cold caches, empty
session pool. -/
def stW : ManagerState :=
  { configs := [alphaC, betaC], toolCache := [], toolsListCache := []
    cacheTimestamp := 0, activeSessions := [], sessionTtl := 300
    cacheTtl := 300, nextSid := 0 }

/-- Scenario manager state holding one pooled session for `beta` last
used at t = 90. -/
def stSessW : ManagerState :=
  { stW with activeSessions := [("beta", { sid := 7, lastUsed := 90 })] }

/-- The state `stW` after a fresh session for `beta` is created at
t = 100. -/
def stW1 : ManagerState :=
  { stW with
    activeSessions := [("beta", { sid := 0, lastUsed := 100 })],
    nextSid := 1 }

/-- A tool call whose argument payload parses. -/
def callW : ToolCall := { id := "call-2", name := "lookup", arguments := "ok" }

/-- A tool call whose argument payload does not parse as JSON. -/
def badCallW : ToolCall := { id := "call-1", name := "lookup", arguments := "not-json" }

/-- A toy model of `json.loads` for scenarios: only the payload `"ok"`
parses. -/
def parseW : String → Option ArgsV := fun s => if s = "ok" then some [] else none

/-- An assistant message carrying one further tool call. -/
def msgMoreW : Message := { content := some "again", toolCalls := [callW] }

/-- A final assistant message with no tool calls. -/
def msgDoneW : Message := { content := some "done", toolCalls := [] }

/-- Scenario for the malformed-arguments run: tool execution always
fails, the LLM always finishes. -/
def c1EnvW : LoopEnv :=
  { parseArgs := parseW
    execTool := fun _ _ => .error "boom"
    llm := fun _ => .ok msgDoneW }

/-- Scenario LLM stub that always requests a further tool call. -/
def c2EnvW : LoopEnv :=
  { parseArgs := fun _ => some []
    execTool := fun _ _ => .ok "42"
    llm := fun _ => .ok msgMoreW }

/-- Scenario LLM stub that answers round 1 and fails on round 2. -/
def c7EnvW : LoopEnv :=
  { parseArgs := fun _ => some []
    execTool := fun _ _ => .ok "42"
    llm := fun i => if i = 1 then .ok msgMoreW else .error "API down" }

/-- Scenario LLM stub that finishes after one round. -/
def c9EnvW : LoopEnv :=
  { parseArgs := fun _ => some []
    execTool := fun _ _ => .ok "42"
    llm := fun _ => .ok msgDoneW }

/-! ## Lemmas about the tool-call loop -/

theorem execute_single_ok (env : LoopEnv) (tc : ToolCall)
    (hp : (env.parseArgs tc.arguments).isSome) :
    ∃ r, execute_single_tool_call env tc = .ok r := by
  cases hpa : env.parseArgs tc.arguments with
  | none => rw [hpa] at hp; simp at hp
  | some args =>
    cases hex : env.execTool tc.name args with
    | ok r =>
      exact ⟨.str r, by simp [execute_single_tool_call, hpa, hex]⟩
    | error e =>
      exact ⟨.errorDict ("Error executing tool " ++ tc.name ++ ": " ++ e),
             by simp [execute_single_tool_call, hpa, hex]⟩

theorem runToolCalls_ok (env : LoopEnv)
    (hp : ∀ s, (env.parseArgs s).isSome) :
    ∀ (tcs : List ToolCall) (h : List HistMsg),
      ∃ h2, runToolCalls env tcs h = .ok h2 := by
  intro tcs
  induction tcs with
  | nil => intro h; exact ⟨h, rfl⟩
  | cons tc rest ih =>
    intro h
    obtain ⟨r, hr⟩ := execute_single_ok env tc (hp tc.arguments)
    obtain ⟨h2, hh2⟩ :=
      ih (h ++ [HistMsg.tool tc.id tc.name (tool_result_content r)])
    refine ⟨h2, ?_⟩
    rw [runToolCalls, hr]
    exact hh2

theorem nonempty_isEmpty_false {m : Message} (hm : m.toolCalls ≠ []) :
    ¬ (m.toolCalls.isEmpty = true) := by
  cases hmc : m.toolCalls with
  | nil => exact absurd hmc hm
  | cons a l => simp [hmc]

theorem loop_go_bounds (env : LoopEnv) :
    ∀ (fuel it : Nat) (m : Message) (h : List HistMsg) (m2 : Message)
      (it2 : Nat) (h2 : List HistMsg),
      execute_tool_loop_go env fuel m it h = .ok (m2, it2, h2) →
      it ≤ it2 ∧ it2 ≤ it + fuel := by
  intro fuel
  induction fuel with
  | zero =>
    intro it m h m2 it2 h2 heq
    obtain ⟨rfl, rfl, rfl⟩ : m = m2 ∧ it = it2 ∧ h = h2 := by
      simpa [execute_tool_loop_go] using heq
    omega
  | succ fuel ih =>
    intro it m h m2 it2 h2 heq
    simp only [execute_tool_loop_go] at heq
    by_cases hemp : m.toolCalls.isEmpty
    · simp only [hemp, if_true] at heq
      obtain ⟨rfl, rfl, rfl⟩ : m = m2 ∧ it = it2 ∧ h = h2 := by
        simpa using heq
      omega
    · simp only [hemp, if_false] at heq
      cases hrun : runToolCalls env m.toolCalls
          (h ++ [HistMsg.assistant m.content m.toolCalls]) with
      | error e => rw [hrun] at heq; cases heq
      | ok hh =>
        rw [hrun] at heq
        cases hllm : env.llm (it + 1) with
        | error e =>
          rw [hllm] at heq
          obtain ⟨rfl, rfl, rfl⟩ : m = m2 ∧ it + 1 = it2 ∧ hh = h2 := by
            simpa using heq
          omega
        | ok mm =>
          rw [hllm] at heq
          have := ih (it + 1) mm hh m2 it2 h2 heq
          omega

theorem loop_go_stub (env : LoopEnv)
    (hstub : ∀ i, ∃ m, env.llm i = .ok m ∧ m.toolCalls ≠ [])
    (hp : ∀ s, (env.parseArgs s).isSome) :
    ∀ (fuel it : Nat) (m : Message) (h : List HistMsg), m.toolCalls ≠ [] →
      ∃ m2 h2, execute_tool_loop_go env fuel m it h = .ok (m2, it + fuel, h2) ∧
        (fuel = 0 → m2 = m) ∧
        (0 < fuel → env.llm (it + fuel) = .ok m2 ∧ m2.toolCalls ≠ []) := by
  intro fuel
  induction fuel with
  | zero =>
    intro it m h _
    exact ⟨m, h, by simp [execute_tool_loop_go], fun _ => rfl,
           fun hc => absurd hc (Nat.lt_irrefl 0)⟩
  | succ fuel ih =>
    intro it m h hm
    have hemp := nonempty_isEmpty_false hm
    obtain ⟨hh, hrun⟩ := runToolCalls_ok env hp m.toolCalls
      (h ++ [HistMsg.assistant m.content m.toolCalls])
    obtain ⟨mm, hllm, hmm⟩ := hstub (it + 1)
    obtain ⟨m2, h2, hgo, h0, hpos⟩ := ih (it + 1) mm hh hmm
    refine ⟨m2, h2, ?_, fun hc => absurd hc (Nat.succ_ne_zero fuel),
            fun _ => ?_⟩
    · have harr : it + (fuel + 1) = it + 1 + fuel := by omega
      rw [harr]
      simp only [execute_tool_loop_go, hemp, if_false, hrun, hllm]
      exact hgo
    · rcases Nat.eq_zero_or_pos fuel with hf | hf
      · subst hf
        have hmme : m2 = mm := h0 rfl
        subst hmme
        refine ⟨?_, hmm⟩
        have harr : it + (0 + 1) = it + 1 := by omega
        rw [harr]; exact hllm
      · obtain ⟨ha, hb⟩ := hpos hf
        refine ⟨?_, hb⟩
        have harr : it + (fuel + 1) = it + 1 + fuel := by omega
        rw [harr]; exact ha

theorem loop_go_fail (env : LoopEnv) (j : Nat) (e : String)
    (hpre : ∀ i, 1 ≤ i → i < j → ∃ m, env.llm i = .ok m ∧ m.toolCalls ≠ [])
    (herr : env.llm j = .error e)
    (hp : ∀ s, (env.parseArgs s).isSome) :
    ∀ (fuel it : Nat) (m : Message) (h : List HistMsg),
      m.toolCalls ≠ [] → it + 1 ≤ j → j ≤ it + fuel →
      ∃ mlast h2, execute_tool_loop_go env fuel m it h = .ok (mlast, j, h2) ∧
        (it + 1 = j → mlast = m) ∧
        (it + 1 < j → env.llm (j - 1) = .ok mlast) := by
  intro fuel
  induction fuel with
  | zero =>
    intro it m h _ hlo hhi
    omega
  | succ fuel ih =>
    intro it m h hm hlo hhi
    have hemp := nonempty_isEmpty_false hm
    obtain ⟨hh, hrun⟩ := runToolCalls_ok env hp m.toolCalls
      (h ++ [HistMsg.assistant m.content m.toolCalls])
    rcases Nat.lt_or_ge (it + 1) j with hcmp | hcmp
    · obtain ⟨mm, hllm, hmm⟩ := hpre (it + 1) (by omega) hcmp
      obtain ⟨mlast, h2, hgo, h1, h2p⟩ :=
        ih (it + 1) mm hh hmm (by omega) (by omega)
      refine ⟨mlast, h2, ?_, fun hc => absurd hc (by omega), fun _ => ?_⟩
      · simp only [execute_tool_loop_go, hemp, if_false, hrun, hllm]
        exact hgo
      · rcases Nat.lt_or_ge (it + 1 + 1) j with hc2 | hc2
        · exact h2p hc2
        · have hj : it + 1 + 1 = j := by omega
          have hml : mlast = mm := h1 hj
          subst hml
          have hj1 : j - 1 = it + 1 := by omega
          rw [hj1]; exact hllm
    · have hj : it + 1 = j := by omega
      subst hj
      refine ⟨m, hh, ?_, fun _ => rfl, fun hc => absurd hc (by omega)⟩
      simp [execute_tool_loop_go, hemp, hrun, herr]

/-! ## Claim theorems: tool-call loop -/

/-- C1 (code bug): a tool call whose argument payload is not parseable is
NOT recorded as the result of that tool — `json.loads` runs before the `try`
block of `_execute_single_tool_call`, so the parse failure is raised out
of `execute_tool_loop` and aborts the turn, with no tool-result message
appended and the remaining calls of the batch never executed. For
contrast, the second conjunct shows that a failure inside `execute_tool`
is caught and recorded as an error payload with the loop proceeding to
resubmit, exactly as the claim describes for parse failures. -/
theorem c1_parse_failure_raises :
    execute_tool_loop c1EnvW 5
        { content := none, toolCalls := [badCallW, callW] } [] =
      .error ("JSONDecodeError: not-json")
    ∧ execute_tool_loop c1EnvW 5
        { content := none, toolCalls := [callW] } [] =
      .ok { finalResponse := "done"
            maxIterationsReached := false
            iteration := 1
            history := [HistMsg.assistant none [callW],
                        HistMsg.tool "call-2" "lookup"
                          (jsonErrorObj "Error executing tool lookup: boom")] } :=
  ⟨rfl, rfl⟩

/-- C2: with an LLM stub that always answers with a further tool-call
request and never errors (and argument payloads that always parse), the
loop with `max_iterations = k` performs exactly `k` resubmissions, the
cap flag is true, and the final text is the last assistant content when
non-empty, else the fixed placeholder. -/
theorem c2_iteration_cap (env : LoopEnv) (k : Nat) (initial : Message)
    (h0 : List HistMsg)
    (hstub : ∀ i, ∃ m, env.llm i = .ok m ∧ m.toolCalls ≠ [])
    (hp : ∀ s, (env.parseArgs s).isSome)
    (hinit : initial.toolCalls ≠ []) :
    ∃ mlast h2, execute_tool_loop env k initial h0 =
        .ok { finalResponse := finalResponseOf mlast
              maxIterationsReached := true
              iteration := k
              history := h2 } ∧
      ((k = 0 ∧ mlast = initial) ∨ (0 < k ∧ env.llm k = .ok mlast)) := by
  obtain ⟨m2, h2, hgo, hz, hpos⟩ := loop_go_stub env hstub hp k 0 initial h0 hinit
  refine ⟨m2, h2, ?_, ?_⟩
  · unfold execute_tool_loop
    rw [show (0 : Nat) + k = k from by omega] at hgo
    rw [hgo]
    simp
  · rcases Nat.eq_zero_or_pos k with hk | hk
    · exact Or.inl ⟨hk, hz hk⟩
    · have := hpos hk
      rw [show (0 : Nat) + k = k from by omega] at this
      exact Or.inr ⟨hk, this.1⟩

/-- C2 witness: the stub of `c2EnvW` with `max_iterations = 2`. -/
theorem c2_iteration_cap_witness :
    ∃ mlast h2, execute_tool_loop c2EnvW 2 msgMoreW [] =
        .ok { finalResponse := finalResponseOf mlast
              maxIterationsReached := true
              iteration := 2
              history := h2 } ∧
      ((2 = 0 ∧ mlast = msgMoreW) ∨ (0 < 2 ∧ c2EnvW.llm 2 = .ok mlast)) :=
  c2_iteration_cap c2EnvW 2 msgMoreW []
    (fun _ => ⟨msgMoreW, rfl, by simp [msgMoreW]⟩)
    (fun _ => rfl)
    (by simp [msgMoreW])

/-- C7: when the resubmission on round `j` raises and every earlier round
succeeded with further tool calls, the loop terminates at round `j`
without raising: it returns the content of the last successfully received
assistant message (the initial one when `j = 1`, else the round `j - 1`
response), or the placeholder when that content is empty. -/
theorem c7_resubmission_failure (env : LoopEnv) (k : Nat) (initial : Message)
    (h0 : List HistMsg) (j : Nat) (e : String)
    (hj1 : 1 ≤ j) (hjk : j ≤ k)
    (hpre : ∀ i, 1 ≤ i → i < j → ∃ m, env.llm i = .ok m ∧ m.toolCalls ≠ [])
    (herr : env.llm j = .error e)
    (hp : ∀ s, (env.parseArgs s).isSome)
    (hinit : initial.toolCalls ≠ []) :
    ∃ mlast h2, execute_tool_loop env k initial h0 =
        .ok { finalResponse := finalResponseOf mlast
              maxIterationsReached := decide (k ≤ j)
              iteration := j
              history := h2 } ∧
      ((j = 1 ∧ mlast = initial) ∨ (2 ≤ j ∧ env.llm (j - 1) = .ok mlast)) := by
  obtain ⟨mlast, h2, hgo, h1, h2p⟩ :=
    loop_go_fail env j e hpre herr hp k 0 initial h0 hinit (by omega) (by omega)
  refine ⟨mlast, h2, ?_, ?_⟩
  · unfold execute_tool_loop
    rw [hgo]
  · rcases Nat.lt_or_ge 1 j with hc | hc
    · exact Or.inr ⟨by omega, h2p (by omega)⟩
    · have hj : j = 1 := by omega
      exact Or.inl ⟨hj, h1 (by omega)⟩

/-- C7 witness: `c7EnvW` fails on round 2 with `max_iterations = 5`. -/
theorem c7_resubmission_failure_witness :
    ∃ mlast h2, execute_tool_loop c7EnvW 5 msgMoreW [] =
        .ok { finalResponse := finalResponseOf mlast
              maxIterationsReached := decide (5 ≤ 2)
              iteration := 2
              history := h2 } ∧
      ((2 = 1 ∧ mlast = msgMoreW) ∨ (2 ≤ 2 ∧ c7EnvW.llm (2 - 1) = .ok mlast)) :=
  c7_resubmission_failure c7EnvW 5 msgMoreW [] 2 "API down"
    (by omega) (by omega)
    (fun i h1 h2 => by
      have hi : i = 1 := by omega
      subst hi
      exact ⟨msgMoreW, rfl, by simp [msgMoreW]⟩)
    rfl
    (fun _ => rfl)
    (by simp [msgMoreW])

/-- C9: the returned cap flag is true exactly when the final value of the
iteration counter equals `max_iterations`, whatever ended the loop; the
counter never exceeds `max_iterations`. -/
theorem c9_cap_flag_iff (env : LoopEnv) (k : Nat) (initial : Message)
    (h0 : List HistMsg) (out : LoopOut)
    (h : execute_tool_loop env k initial h0 = .ok out) :
    out.iteration ≤ k ∧
      (out.maxIterationsReached = true ↔ out.iteration = k) := by
  unfold execute_tool_loop at h
  cases hgo : execute_tool_loop_go env k initial 0 h0 with
  | error e => rw [hgo] at h; cases h
  | ok p =>
    obtain ⟨m, it, h2⟩ := p
    rw [hgo] at h
    obtain ⟨b1, b2⟩ := loop_go_bounds env k 0 initial h0 m it h2 hgo
    cases h
    simp only [decide_eq_true_eq]
    omega

/-- C9 witness: a run that ends normally on round 1 of 1 — the final
response carries no tool calls and yet the cap flag is true. -/
theorem c9_cap_flag_iff_witness :
    ({ finalResponse := "done"
       maxIterationsReached := true
       iteration := 1
       history := [HistMsg.assistant (some "again") [callW],
                   HistMsg.tool "call-2" "lookup" "42"] } : LoopOut).iteration ≤ 1 ∧
      (({ finalResponse := "done"
          maxIterationsReached := true
          iteration := 1
          history := [HistMsg.assistant (some "again") [callW],
                      HistMsg.tool "call-2" "lookup" "42"] } : LoopOut).maxIterationsReached = true ↔
        ({ finalResponse := "done"
           maxIterationsReached := true
           iteration := 1
           history := [HistMsg.assistant (some "again") [callW],
                       HistMsg.tool "call-2" "lookup" "42"] } : LoopOut).iteration = 1) :=
  c9_cap_flag_iff c9EnvW 1 msgMoreW [] _ rfl

/-! ## Association-list lemmas -/

theorem alookup_mem {α : Type} {m : List (String × α)} {k : String} {v : α}
    (h : alookup m k = some v) : (k, v) ∈ m := by
  unfold alookup at h
  cases hf : m.find? (fun q => q.1 = k) with
  | none => rw [hf] at h; cases h
  | some q =>
    rw [hf] at h
    have hmem := List.mem_of_find?_eq_some hf
    have hkeyb := List.find?_some hf
    have hkey : q.1 = k := of_decide_eq_true hkeyb
    cases q with
    | mk a b =>
      cases h
      simp only at hkey
      subst hkey
      exact hmem

theorem alookup_cons {α : Type} (a : String × α) (l : List (String × α))
    (k : String) :
    alookup (a :: l) k = if a.1 = k then some a.2 else alookup l k := by
  by_cases h : a.1 = k
  · simp [alookup, List.find?_cons, h]
  · simp [alookup, List.find?_cons, h]

theorem mem_aset {α : Type} :
    ∀ (m : List (String × α)) (k : String) (v : α) (p : String × α),
      p ∈ aset m k v → p ∈ m ∨ p = (k, v) := by
  intro m
  induction m with
  | nil =>
    intro k v p hp
    simp [aset] at hp
    exact Or.inr hp
  | cons a rest ih =>
    intro k v p hp
    by_cases hk : a.1 = k
    · rw [aset, if_pos hk] at hp
      rcases List.mem_cons.mp hp with h | h
      · exact Or.inr h
      · exact Or.inl (List.mem_cons_of_mem a h)
    · rw [aset, if_neg hk] at hp
      rcases List.mem_cons.mp hp with h | h
      · exact Or.inl (h ▸ List.mem_cons_self a rest)
      · rcases ih k v p h with h2 | h2
        · exact Or.inl (List.mem_cons_of_mem a h2)
        · exact Or.inr h2

theorem alookup_aset_self {α : Type} :
    ∀ (m : List (String × α)) (k : String) (v : α),
      alookup (aset m k v) k = some v := by
  intro m
  induction m with
  | nil => intro k v; simp [aset, alookup_cons]
  | cons a rest ih =>
    intro k v
    by_cases hk : a.1 = k
    · rw [aset, if_pos hk, alookup_cons]
      simp
    · rw [aset, if_neg hk, alookup_cons, if_neg hk]
      exact ih k v

theorem mem_aremove {α : Type} {m : List (String × α)} {k : String}
    {p : String × α} (h : p ∈ aremove m k) : p ∈ m ∧ ¬ p.1 = k := by
  unfold aremove at h
  have := List.mem_filter.mp h
  exact ⟨this.1, of_decide_eq_true this.2⟩

theorem alookup_aremove_self {α : Type} (m : List (String × α))
    (k : String) : alookup (aremove m k) k = none := by
  unfold alookup
  cases hf : (aremove m k).find? (fun q => q.1 = k) with
  | none => rfl
  | some q =>
    exfalso
    have hkeyb := List.find?_some hf
    have hkey : q.1 = k := of_decide_eq_true hkeyb
    have hmem := List.mem_of_find?_eq_some hf
    exact (mem_aremove hmem).2 hkey

theorem aremove_of_absent {α : Type} {m : List (String × α)} {k : String}
    (h : alookup m k = none) : aremove m k = m := by
  unfold alookup at h
  cases hf : m.find? (fun p => p.1 = k) with
  | some p => rw [hf] at h; cases h
  | none =>
    have hall := List.find?_eq_none.mp hf
    unfold aremove
    apply List.filter_eq_self.mpr
    intro p hp
    have : ¬ (p.1 = k) := by
      have := hall p hp
      simpa using this
    simpa using this

/-! ## Session acquisition lemmas -/

theorem gocs_ok_spec (env : MCPEnv) (now : Int) (st : ManagerState)
    (c : MCPServerConfig)
    (hstdio : c.transport = "stdio")
    (hconn : exceptIsOk (env.connect c.name) = true) :
    ∃ st1 sid, get_or_create_session env now st c = .ok (st1, sid) ∧
      (∀ p ∈ st1.activeSessions,
        p ∈ st.activeSessions ∨ (p.1 = c.name ∧ p.2.lastUsed = now)) ∧
      st1.toolCache = st.toolCache ∧ st1.configs = st.configs ∧
      st1.sessionTtl = st.sessionTtl ∧
      st1.toolsListCache = st.toolsListCache ∧
      st1.cacheTimestamp = st.cacheTimestamp ∧
      st1.cacheTtl = st.cacheTtl := by
  have hnotne : ¬ (c.transport ≠ "stdio") := by simp [hstdio]
  cases hc : env.connect c.name with
  | error e => rw [hc] at hconn; simp [exceptIsOk] at hconn
  | ok u =>
    cases halk : alookup st.activeSessions c.name with
    | none =>
      refine ⟨{ st with
                activeSessions :=
                  aset st.activeSessions c.name
                    { sid := st.nextSid, lastUsed := now }
                nextSid := st.nextSid + 1 },
              st.nextSid, ?_, ?_, rfl, rfl, rfl, rfl, rfl, rfl⟩
      · simp only [get_or_create_session, halk]
        rw [create_new_session, if_neg hnotne, hc]
      · intro p hp
        rcases mem_aset _ _ _ p hp with h | h
        · exact Or.inl h
        · exact Or.inr (by rw [h]; exact ⟨rfl, rfl⟩)
    | some sd =>
      by_cases hlt : now - sd.lastUsed < st.sessionTtl
      · refine ⟨{ st with
                  activeSessions :=
                    aset st.activeSessions c.name
                      { sd with lastUsed := now } },
                sd.sid, ?_, ?_, rfl, rfl, rfl, rfl, rfl, rfl⟩
        · simp only [get_or_create_session, halk]
          rw [if_pos hlt]
        · intro p hp
          rcases mem_aset _ _ _ p hp with h | h
          · exact Or.inl h
          · exact Or.inr (by rw [h]; exact ⟨rfl, rfl⟩)
      · refine ⟨{ st with
                  activeSessions :=
                    aset (aremove st.activeSessions c.name) c.name
                      { sid := st.nextSid, lastUsed := now }
                  nextSid := st.nextSid + 1 },
                st.nextSid, ?_, ?_, rfl, rfl, rfl, rfl, rfl, rfl⟩
        · simp only [get_or_create_session, halk]
          rw [if_neg hlt, create_new_session, if_neg hnotne, hc]
          rfl
        · intro p hp
          rcases mem_aset _ _ _ p hp with h | h
          · exact Or.inl (mem_aremove h).1
          · exact Or.inr (by rw [h]; exact ⟨rfl, rfl⟩)

theorem gocs_err_spec (env : MCPEnv) (now : Int) (st : ManagerState)
    (c : MCPServerConfig) (e : String)
    (hstdio : c.transport = "stdio")
    (hconn : env.connect c.name = .error e)
    (hinv : ∀ p ∈ st.activeSessions, exceptIsOk (env.connect p.1) = true) :
    get_or_create_session env now st c = .error e := by
  have hnotne : ¬ (c.transport ≠ "stdio") := by simp [hstdio]
  cases halk : alookup st.activeSessions c.name with
  | none =>
    simp only [get_or_create_session, halk]
    rw [create_new_session, if_neg hnotne, hconn]
  | some sd =>
    exfalso
    have hmem := alookup_mem halk
    have := hinv _ hmem
    rw [hconn] at this
    simp [exceptIsOk] at this

theorem inv_no_failed (env : MCPEnv) (now : Int)
    (sessions : List (String × SessionData))
    (hinv : RefreshInv env now sessions) (n : String)
    (hfail : (exceptIsOk (env.connect n) && exceptIsOk (env.listTools n)) = false) :
    alookup sessions n = none := by
  cases halk : alookup sessions n with
  | none => rfl
  | some sd =>
    exfalso
    obtain ⟨-, hc, hl⟩ := hinv _ (alookup_mem halk)
    rw [hc, hl] at hfail
    simp at hfail

theorem refresh_loop_spec (env : MCPEnv) (now : Int) :
    ∀ (configs : List MCPServerConfig) (st : ManagerState)
      (acc : List OpenAITool),
      (∀ c ∈ configs, c.transport = "stdio") →
      RefreshInv env now st.activeSessions →
      (refresh_loop env now configs st acc).1 =
        acc ++ (configs.map (fun c =>
          if discovery_ok env c then
            (server_tools env c).map (format_openai_tool c.name)
          else [])).flatten
      ∧ RefreshInv env now (refresh_loop env now configs st acc).2.activeSessions := by
  intro configs
  induction configs with
  | nil =>
    intro st acc _ hinv
    exact ⟨by simp [refresh_loop], hinv⟩
  | cons c rest ih =>
    intro st acc hstdio hinv
    have hcstdio : c.transport = "stdio" := hstdio c (List.mem_cons_self c rest)
    have hreststdio : ∀ x ∈ rest, x.transport = "stdio" :=
      fun x hx => hstdio x (List.mem_cons_of_mem c hx)
    cases hc : env.connect c.name with
    | error e =>
      have hgocs := gocs_err_spec env now st c e hcstdio hc
        (fun p hp => (hinv p hp).2.1)
      have hinv2 : RefreshInv env now (close_session st c.name).activeSessions :=
        fun p hp => hinv p (mem_aremove hp).1
      have hdok : discovery_ok env c = false := by
        simp [discovery_ok, hc, exceptIsOk]
      obtain ⟨ih1, ih2⟩ := ih (close_session st c.name) acc hreststdio hinv2
      rw [refresh_loop, hgocs]
      refine ⟨?_, ih2⟩
      rw [ih1]
      simp [hdok]
    | ok u =>
      have hconn : exceptIsOk (env.connect c.name) = true := by
        rw [hc]; rfl
      obtain ⟨st1, sid, hgocs, hmem1, htc1, hcf1, httl1, hlc1, hts1, hct1⟩ :=
        gocs_ok_spec env now st c hcstdio hconn
      cases hl : env.listTools c.name with
      | error e2 =>
        have hinv2 : RefreshInv env now (close_session st1 c.name).activeSessions := by
          intro p hp
          obtain ⟨hp1, hpne⟩ := mem_aremove hp
          rcases hmem1 p hp1 with h | h
          · exact hinv p h
          · exact absurd h.1 hpne
        have hdok : discovery_ok env c = false := by
          simp [discovery_ok, hl, exceptIsOk]
        obtain ⟨ih1, ih2⟩ := ih (close_session st1 c.name) acc hreststdio hinv2
        rw [refresh_loop, hgocs, hl]
        refine ⟨?_, ih2⟩
        rw [ih1]
        simp [hdok]
      | ok ts =>
        have hdok : discovery_ok env c = true := by
          simp [discovery_ok, hc, hl, exceptIsOk]
        have hst2 : RefreshInv env now
            ({ st1 with toolCache :=
                (ts.foldl (fun (tc : List (String × String)) (t : ToolInfo) =>
                  aset tc t.name c.name) st1.toolCache) }).activeSessions := by
          intro p hp
          rcases hmem1 p hp with h | h
          · exact hinv p h
          · refine ⟨h.2, ?_, ?_⟩
            · rw [h.1, hc]; rfl
            · rw [h.1, hl]; rfl
        obtain ⟨ih1, ih2⟩ := ih _ (acc ++ ts.map (format_openai_tool c.name))
          hreststdio hst2
        rw [refresh_loop, hgocs, hl]
        refine ⟨?_, ih2⟩
        rw [ih1]
        simp [hdok, server_tools, hl, List.append_assoc]

theorem find_server_loop_spec (env : MCPEnv) (now : Int) (toolName : String) :
    ∀ (configs : List MCPServerConfig) (st : ManagerState),
      (∀ c ∈ configs, c.transport = "stdio") →
      RefreshInv env now st.activeSessions →
      (find_server_loop env now toolName configs st).1 =
        configs.find? (fun c => discovery_ok env c &&
          (server_tools env c).any (fun t => t.name = toolName)) := by
  intro configs
  induction configs with
  | nil => intro st _ _; simp [find_server_loop]
  | cons c rest ih =>
    intro st hstdio hinv
    have hcstdio : c.transport = "stdio" := hstdio c (List.mem_cons_self c rest)
    have hreststdio : ∀ x ∈ rest, x.transport = "stdio" :=
      fun x hx => hstdio x (List.mem_cons_of_mem c hx)
    cases hc : env.connect c.name with
    | error e =>
      have hgocs := gocs_err_spec env now st c e hcstdio hc
        (fun p hp => (hinv p hp).2.1)
      have hinv2 : RefreshInv env now (close_session st c.name).activeSessions :=
        fun p hp => hinv p (mem_aremove hp).1
      have hdok : discovery_ok env c = false := by
        simp [discovery_ok, hc, exceptIsOk]
      rw [find_server_loop, hgocs, ih (close_session st c.name) hreststdio hinv2,
          List.find?_cons_of_neg]
      simp [hdok]
    | ok u =>
      have hconn : exceptIsOk (env.connect c.name) = true := by
        rw [hc]; rfl
      obtain ⟨st1, sid, hgocs, hmem1, htc1, hcf1, httl1, hlc1, hts1, hct1⟩ :=
        gocs_ok_spec env now st c hcstdio hconn
      cases hl : env.listTools c.name with
      | error e2 =>
        have hinv2 : RefreshInv env now (close_session st1 c.name).activeSessions := by
          intro p hp
          obtain ⟨hp1, hpne⟩ := mem_aremove hp
          rcases hmem1 p hp1 with h | h
          · exact hinv p h
          · exact absurd h.1 hpne
        have hdok : discovery_ok env c = false := by
          simp [discovery_ok, hl, exceptIsOk]
        rw [find_server_loop, hgocs, hl, ih (close_session st1 c.name) hreststdio hinv2,
            List.find?_cons_of_neg]
        simp [hdok]
      | ok ts =>
        have hdok : discovery_ok env c = true := by
          simp [discovery_ok, hc, hl, exceptIsOk]
        have hsrv : server_tools env c = ts := by simp [server_tools, hl]
        by_cases hany : (ts.any fun t => decide (t.name = toolName)) = true
        · simp only [find_server_loop, hgocs, hl]
          rw [if_pos hany]
          simp [List.find?_cons, hdok, hsrv, hany]
        · have hanyf : (ts.any fun t => decide (t.name = toolName)) = false := by
            cases hb : ts.any fun t => decide (t.name = toolName)
            · rfl
            · exact absurd hb hany
          have hinv1 : RefreshInv env now st1.activeSessions := by
            intro p hp
            rcases hmem1 p hp with h | h
            · exact hinv p h
            · refine ⟨h.2, ?_, ?_⟩
              · rw [h.1, hc]; rfl
              · rw [h.1, hl]; rfl
          simp only [find_server_loop, hgocs, hl]
          rw [if_neg hany, ih st1 hreststdio hinv1]
          simp [List.find?_cons, hdok, hsrv, hanyf]

/-! ## Claim theorems: MCP server manager -/

/-- C3: from a cold state (empty session pool, stdio servers, invalid
cache), a per-server discovery failure is isolated: `get_all_tools`
returns exactly the concatenation of the formatted tool lists of the
servers whose discovery succeeded, every failing server ends with its
session closed (absent from the pool, so the next access re-establishes
it), and the linear search of `_find_server_with_tool` returns the first
server whose discovery succeeds and that owns the tool, skipping failing
servers. -/
theorem c3_failure_isolation (env : MCPEnv) (now : Int) (st : ManagerState)
    (toolName : String)
    (hsess : st.activeSessions = [])
    (hstdio : ∀ c ∈ st.configs, c.transport = "stdio")
    (hinvalid : is_cache_valid now st = false) :
    (get_all_tools env now st).1 =
      (st.configs.map (fun c =>
        if discovery_ok env c then
          (server_tools env c).map (format_openai_tool c.name)
        else [])).flatten
    ∧ (∀ c ∈ st.configs, discovery_ok env c = false →
        alookup (get_all_tools env now st).2.activeSessions c.name = none)
    ∧ (find_server_with_tool env now st toolName).1 =
      st.configs.find? (fun c => discovery_ok env c &&
        (server_tools env c).any (fun t => t.name = toolName)) := by
  have hinv : RefreshInv env now st.activeSessions := by
    rw [hsess]; intro p hp; cases hp
  have hcond : (is_cache_valid now st && !st.toolsListCache.isEmpty) = false := by
    rw [hinvalid]; rfl
  have hga : get_all_tools env now st = refresh_all env now st := by
    rw [get_all_tools, hcond]; rfl
  obtain ⟨h1, h2⟩ := refresh_loop_spec env now st.configs st [] hstdio hinv
  refine ⟨?_, ?_, ?_⟩
  · rw [hga]
    show (refresh_loop env now st.configs st []).1 = _
    rw [h1]; rfl
  · intro c _ hfail
    rw [hga]
    show alookup (refresh_loop env now st.configs st []).2.activeSessions c.name = none
    exact inv_no_failed env now _ h2 c.name (by rw [← discovery_ok]; exact hfail)
  · exact find_server_loop_spec env now toolName st.configs st hstdio hinv

/-- C3 witness: two servers, `alpha` failing at connect and `beta`
healthy with one tool `t`. -/
theorem c3_failure_isolation_witness :
    ((get_all_tools envM 100 stW).1 =
      (stW.configs.map (fun c =>
        if discovery_ok envM c then
          (server_tools envM c).map (format_openai_tool c.name)
        else [])).flatten
    ∧ (∀ c ∈ stW.configs, discovery_ok envM c = false →
        alookup (get_all_tools envM 100 stW).2.activeSessions c.name = none)
    ∧ (find_server_with_tool envM 100 stW "t").1 =
      stW.configs.find? (fun c => discovery_ok envM c &&
        (server_tools envM c).any (fun t => t.name = "t"))) :=
  c3_failure_isolation envM 100 stW "t" rfl
    (by decide) (by decide)

theorem gocs_preserves (env : MCPEnv) (now : Int) (st st1 : ManagerState)
    (c : MCPServerConfig) (sid : Nat)
    (h : get_or_create_session env now st c = .ok (st1, sid)) :
    st1.toolCache = st.toolCache ∧ st1.configs = st.configs := by
  cases halk : alookup st.activeSessions c.name with
  | none =>
    simp only [get_or_create_session, halk] at h
    by_cases htr : c.transport ≠ "stdio"
    · rw [create_new_session, if_pos htr] at h; cases h
    · rw [create_new_session, if_neg htr] at h
      cases hc : env.connect c.name with
      | error e => rw [hc] at h; cases h
      | ok u =>
        rw [hc] at h
        injection h with h1
        injection h1 with h2 h3
        subst h2
        exact ⟨rfl, rfl⟩
  | some sd =>
    simp only [get_or_create_session, halk] at h
    by_cases hlt : now - sd.lastUsed < st.sessionTtl
    · rw [if_pos hlt] at h
      injection h with h1
      injection h1 with h2 h3
      subst h2
      exact ⟨rfl, rfl⟩
    · rw [if_neg hlt] at h
      by_cases htr : c.transport ≠ "stdio"
      · rw [create_new_session, if_pos htr] at h; cases h
      · rw [create_new_session, if_neg htr] at h
        cases hc : env.connect c.name with
        | error e => rw [hc] at h; cases h
        | ok u =>
          rw [hc] at h
          injection h with h1
          injection h1 with h2 h3
          subst h2
          exact ⟨rfl, rfl⟩

theorem find_server_loop_none (env : MCPEnv) (now : Int) (toolName : String) :
    ∀ (configs : List MCPServerConfig) (st : ManagerState),
      (∀ c ∈ configs,
        (server_tools env c).any (fun t => t.name = toolName) = false) →
      ∃ st2, find_server_loop env now toolName configs st = (none, st2) := by
  intro configs
  induction configs with
  | nil => intro st _; exact ⟨st, rfl⟩
  | cons c rest ih =>
    intro st hno
    have hcno := hno c (List.mem_cons_self c rest)
    have hrest : ∀ x ∈ rest,
        (server_tools env x).any (fun t => t.name = toolName) = false :=
      fun x hx => hno x (List.mem_cons_of_mem c hx)
    cases hg : get_or_create_session env now st c with
    | error e =>
      obtain ⟨st2, h2⟩ := ih (close_session st c.name) hrest
      refine ⟨st2, ?_⟩
      simp only [find_server_loop, hg]
      exact h2
    | ok p =>
      obtain ⟨st1, sid⟩ := p
      cases hl : env.listTools c.name with
      | error e2 =>
        obtain ⟨st2, h2⟩ := ih (close_session st1 c.name) hrest
        refine ⟨st2, ?_⟩
        simp only [find_server_loop, hg, hl]
        exact h2
      | ok ts =>
        have hanyf : (ts.any fun t => decide (t.name = toolName)) = false := by
          have hsv := hcno
          rw [show server_tools env c = ts from by simp [server_tools, hl]] at hsv
          exact hsv
        obtain ⟨st2, h2⟩ := ih st1 hrest
        refine ⟨st2, ?_⟩
        simp only [find_server_loop, hg, hl]
        rw [if_neg (by simp [hanyf])]
        exact h2

/-- C4: when dispatch on the owning server fails, a timeout closes the
session but keeps the name-to-server cache entry and raises the timeout
error, while any other execution error closes the session, evicts the
tool from the cache (so a later lookup misses) and propagates the same
error. -/
theorem c4_dispatch_failure (env : MCPEnv) (now : Int) (st st1 : ManagerState)
    (config : MCPServerConfig) (toolName : String) (args : ArgsV) (sid : Nat)
    (hget : get_or_create_session env now st config = .ok (st1, sid)) :
    st1.toolCache = st.toolCache
    ∧ (env.callTool config.name toolName args = .timeout →
        execute_tool_on_server env now st config toolName args =
          (.error (.timeoutError (timeoutMsg toolName)),
           close_session st1 config.name) ∧
        alookup (close_session st1 config.name).activeSessions config.name = none ∧
        (close_session st1 config.name).toolCache = st.toolCache)
    ∧ (∀ e, env.callTool config.name toolName args = .err e →
        execute_tool_on_server env now st config toolName args =
          (.error (.execError e),
           { close_session st1 config.name with
             toolCache := aremove st1.toolCache toolName }) ∧
        alookup (aremove st1.toolCache toolName) toolName = none ∧
        alookup (close_session st1 config.name).activeSessions config.name = none) := by
  obtain ⟨htc, -⟩ := gocs_preserves env now st st1 config sid hget
  refine ⟨htc, fun ht => ?_, fun e he => ?_⟩
  · refine ⟨?_, alookup_aremove_self _ _, htc⟩
    simp only [execute_tool_on_server, hget, ht]
  · refine ⟨?_, alookup_aremove_self _ _, alookup_aremove_self _ _⟩
    simp only [execute_tool_on_server, hget, he]
    rfl

/-- C4 witness: a fresh session on `beta` and a dispatch that times out;
the non-timeout conjunct is instantiated vacuously by the same scenario
environment. -/
theorem c4_dispatch_failure_witness :
    (stW1.toolCache = stW.toolCache
    ∧ (envM.callTool betaC.name "t" [] = .timeout →
        execute_tool_on_server envM 100 stW betaC "t" [] =
          (.error (.timeoutError (timeoutMsg "t")),
           close_session stW1 betaC.name) ∧
        alookup (close_session stW1 betaC.name).activeSessions betaC.name = none ∧
        (close_session stW1 betaC.name).toolCache = stW.toolCache)
    ∧ (∀ e, envM.callTool betaC.name "t" [] = .err e →
        execute_tool_on_server envM 100 stW betaC "t" [] =
          (.error (.execError e),
           { close_session stW1 betaC.name with
             toolCache := aremove stW1.toolCache "t" }) ∧
        alookup (aremove stW1.toolCache "t") "t" = none ∧
        alookup (close_session stW1 betaC.name).activeSessions betaC.name = none)) :=
  c4_dispatch_failure envM 100 stW stW1 betaC "t" [] 0 (by decide)

/-- C5: the cache-validity check is true iff the name-to-server cache is
non-empty and the refresh timestamp is within TTL of now; an empty cache
is invalid regardless of timestamp; and whenever the check is false or
the formatted list is empty, `get_all_tools` performs the full refresh
instead of returning the cached list. -/
theorem c5_cache_validity (env : MCPEnv) (now : Int) (st : ManagerState) :
    (is_cache_valid now st = true ↔
      st.toolCache ≠ [] ∧ now - st.cacheTimestamp < st.cacheTtl)
    ∧ (st.toolCache = [] → is_cache_valid now st = false)
    ∧ ((is_cache_valid now st = false ∨ st.toolsListCache = []) →
        get_all_tools env now st = refresh_all env now st) := by
  refine ⟨?_, ?_, ?_⟩
  · unfold is_cache_valid
    by_cases h : st.toolCache = []
    · simp [h]
    · simp [h]
  · intro h
    unfold is_cache_valid
    rw [if_pos h]
  · intro hdis
    have hcond : (is_cache_valid now st && !st.toolsListCache.isEmpty) = false := by
      rcases hdis with h | h
      · rw [h]; rfl
      · rw [h]; simp
    rw [get_all_tools, hcond]
    rfl

/-- C5 witness: a cold state with empty caches. -/
theorem c5_cache_validity_witness :
    ((is_cache_valid 0 stW = true ↔
      stW.toolCache ≠ [] ∧ (0 : Int) - stW.cacheTimestamp < stW.cacheTtl)
    ∧ (stW.toolCache = [] → is_cache_valid 0 stW = false)
    ∧ ((is_cache_valid 0 stW = false ∨ stW.toolsListCache = []) →
        get_all_tools envM 0 stW = refresh_all envM 0 stW)) :=
  c5_cache_validity envM 0 stW

/-- C6: for a tool name absent from the cache that no configured server
reports owning, `execute_tool` searches every server and fails with the
not-found error naming the tool; it does not return a normal result. -/
theorem c6_not_found (env : MCPEnv) (now : Int) (st : ManagerState)
    (toolName : String) (args : ArgsV)
    (hnotin : alookup st.toolCache toolName = none)
    (hnoown : ∀ c ∈ st.configs,
      (server_tools env c).any (fun t => t.name = toolName) = false) :
    ∃ st2, execute_tool env now st toolName args =
      (.error (.notFound (notFoundMsg toolName)), st2) := by
  have hgc : get_config_from_cache now st toolName = (none, st) := by
    simp [get_config_from_cache, hnotin]
  obtain ⟨st2, hf⟩ := find_server_loop_none env now toolName st.configs st hnoown
  refine ⟨st2, ?_⟩
  simp only [execute_tool, hgc, hf]

/-- C6 witness: name `zzz` owned by no scenario server. -/
theorem c6_not_found_witness :
    ∃ st2, execute_tool envM 100 stW "zzz" [] =
      (.error (.notFound (notFoundMsg "zzz")), st2) :=
  c6_not_found envM 100 stW "zzz" [] rfl (by decide)

/-- C10: a pooled session is reused iff its last-used stamp is within the
session TTL of now (refreshing the stamp on reuse); an expired session is
closed and replaced by a freshly initialized one; closing a server with
no pooled session is a no-op; and a closed session never remains in the
table. -/
theorem c10_session_pool (env : MCPEnv) (now : Int) (st : ManagerState)
    (config : MCPServerConfig) (sd : SessionData) (n : String) :
    (alookup st.activeSessions config.name = some sd →
      now - sd.lastUsed < st.sessionTtl →
      get_or_create_session env now st config =
        .ok ({ st with
                activeSessions :=
                  aset st.activeSessions config.name
                    { sid := sd.sid, lastUsed := now } },
             sd.sid))
    ∧ (alookup st.activeSessions config.name = some sd →
        st.sessionTtl ≤ now - sd.lastUsed →
        config.transport = "stdio" →
        ∀ u, env.connect config.name = .ok u →
        ∃ st1, get_or_create_session env now st config = .ok (st1, st.nextSid) ∧
          alookup st1.activeSessions config.name =
            some { sid := st.nextSid, lastUsed := now } ∧
          st1.nextSid = st.nextSid + 1)
    ∧ (alookup st.activeSessions n = none → close_session st n = st)
    ∧ alookup (close_session st n).activeSessions n = none := by
  refine ⟨fun h1 h2 => ?_, fun h1 h3 h4 u h5 => ?_, fun h6 => ?_,
          alookup_aremove_self _ _⟩
  · simp only [get_or_create_session, h1]
    rw [if_pos h2]
  · have hnotlt : ¬ (now - sd.lastUsed < st.sessionTtl) := by omega
    have hnotne : ¬ (config.transport ≠ "stdio") := by simp [h4]
    refine ⟨{ st with
              activeSessions :=
                aset (aremove st.activeSessions config.name) config.name
                  { sid := st.nextSid, lastUsed := now }
              nextSid := st.nextSid + 1 }, ?_, ?_, rfl⟩
    · simp only [get_or_create_session, h1]
      rw [if_neg hnotlt, create_new_session, if_neg hnotne, h5]
      rfl
    · exact alookup_aset_self _ _ _
  · show { st with activeSessions := aremove st.activeSessions n } = st
    rw [aremove_of_absent h6]

/-- C10 witness: the pooled `beta` session (last used at 90) is reused at
100 with its stamp refreshed; closing the absent `alpha` is a no-op. -/
theorem c10_session_pool_witness :
    ((alookup stSessW.activeSessions betaC.name = some { sid := 7, lastUsed := 90 } →
      (100 : Int) - (90 : Int) < stSessW.sessionTtl →
      get_or_create_session envM 100 stSessW betaC =
        .ok ({ stSessW with
                activeSessions :=
                  aset stSessW.activeSessions betaC.name
                    { sid := 7, lastUsed := 100 } },
             7))
    ∧ (alookup stSessW.activeSessions betaC.name = some { sid := 7, lastUsed := 90 } →
        stSessW.sessionTtl ≤ (100 : Int) - (90 : Int) →
        betaC.transport = "stdio" →
        ∀ u, envM.connect betaC.name = .ok u →
        ∃ st1, get_or_create_session envM 100 stSessW betaC = .ok (st1, stSessW.nextSid) ∧
          alookup st1.activeSessions betaC.name =
            some { sid := stSessW.nextSid, lastUsed := 100 } ∧
          st1.nextSid = stSessW.nextSid + 1)
    ∧ (alookup stSessW.activeSessions "alpha" = none → close_session stSessW "alpha" = stSessW)
    ∧ alookup (close_session stSessW "alpha").activeSessions "alpha" = none) :=
  c10_session_pool envM 100 stSessW betaC { sid := 7, lastUsed := 90 } "alpha"

end AIChatBot
